import Mathlib

/-!
Verification of the k-space-lab spectral transform and masked-reconstruction
engine.  The repository computes a centered 2D discrete Fourier transform of a
grayscale image (`computeSpectrum` in `src/lib/kspace.ts`), renders its
log-magnitude (`renderKspace`), reconstructs the image from the full or
circle-masked spectrum (`renderReconFromSpectrum`, `renderReconFromCircle`,
and the worker's `reconFromCircle` in `src/workers/reconWorker.ts`), and runs
the masked reconstruction in a web worker behind a debounced pointer overlay.

The embedding below models:
* the length-N discrete Fourier transform and its inverse exactly as the
  `mathjs` `fft`/`ifft` used by the source (unnormalized forward kernel
  `exp (-2*pi*I*k*n/N)`, inverse with a `1/N` factor), as functions on
  `Fin N → ℂ`;
* the 2D pipeline of `computeSpectrum` (checkerboard flip, row FFT, column
  FFT), `renderReconFromSpectrum` (column IFFT, row IFFT, real part, flip
  undo, min/max normalization to bytes) and the worker's `reconFromCircle`;
* the worker message handler (`self.onmessage`) as a step function on the
  worker's module state, and the main thread's result handler as a fold;
* the `scheduleDebouncedRecon` debounce logic of `KSpaceCanvas` as a small
  timer state machine.

Real numbers stand in for the source's IEEE doubles; byte outputs are
modelled as `ℤ` with the explicit clamp the source performs.
-/

namespace KSpaceLab

/-- Forward DFT kernel root `exp (-2*pi*I/N)`: `mathjs.fft` computes
`X[k] = sum_n x[n] * exp (-2*pi*I*k*n/N)`. -/
noncomputable def dftRoot (N : ℕ) : ℂ :=
  Complex.exp (-(2 * Real.pi * Complex.I) / N)


/-- One-dimensional DFT of length `N` (the `math.fft` of the source). -/
noncomputable def dft1 {N : ℕ} (f : Fin N → ℂ) (k : Fin N) : ℂ :=
  ∑ n : Fin N, f n * dftRoot N ^ (k.val * n.val)


/-- One-dimensional inverse DFT of length `N` (the `math.ifft` of the
source): conjugate kernel and a `1/N` normalization. -/
noncomputable def idft1 {N : ℕ} (f : Fin N → ℂ) (k : Fin N) : ℂ :=
  (N : ℂ)⁻¹ * ∑ n : Fin N, f n * (dftRoot N)⁻¹ ^ (k.val * n.val)


/-! ### The 2D pipeline of `src/lib/kspace.ts` -/

/-- Checkerboard phase flip applied by `computeSpectrum`:
`centered = row.map((v, x) => ((x + y) % 2 === 0 ? v : -v))`. -/
def centered {rows cols : ℕ} (gray : Fin rows → Fin cols → ℝ)
    (y : Fin rows) (x : Fin cols) : ℝ :=
  if (x.val + y.val) % 2 = 0 then gray y x else -gray y x


/-- `computeSpectrum` (kspace.ts lines 53-69): checkerboard flip, then a 1D
FFT along each row, then a 1D FFT along each resulting column;
`spectrumCols[y][x] = colFft[y]` where `colFft = fft(col at x)`. -/
noncomputable def computeSpectrum {rows cols : ℕ}
    (gray : Fin rows → Fin cols → ℝ) (y : Fin rows) (x : Fin cols) : ℂ :=
  dft1 (fun y' => dft1 (fun x' => (centered gray y' x' : ℂ)) x) y


/-- Column-wise inverse FFT, first half of `renderReconFromSpectrum`
(kspace.ts lines 109-116): `temp[y][x] = ifft(col at x)[y]`. -/
noncomputable def colIfft {rows cols : ℕ}
    (spectrumCols : Fin rows → Fin cols → ℂ) (y : Fin rows) (x : Fin cols) : ℂ :=
  idft1 (fun y' => spectrumCols y' x) y


/-- The reconstructed sample value of `renderReconFromSpectrum`
(kspace.ts lines 118-134): row-wise inverse FFT of `temp`, real part,
then undo the centering with `sign = (x + y) % 2 === 0 ? 1 : -1`. -/
noncomputable def reconValue {rows cols : ℕ}
    (spectrumCols : Fin rows → Fin cols → ℂ) (y : Fin rows) (x : Fin cols) : ℝ :=
  (idft1 (fun x' => colIfft spectrumCols y x') x).re *
    (if (x.val + y.val) % 2 = 0 then 1 else -1)


/-! ### Circular masking (`reconWorker.ts` and `renderReconFromCircle`) -/

/-- The mask-inclusion test of the source:
`dx * dx + dy * dy <= r2` with `dx = x - cx`, `dy = y - cy`,
`r2 = radius * radius` (boundary inclusive). -/
def insideCircle (cx cy : ℤ) (radius : ℕ) (x y : ℕ) : Prop :=
  ((x : ℤ) - cx) * ((x : ℤ) - cx) + ((y : ℤ) - cy) * ((y : ℤ) - cy)
    ≤ (radius : ℤ) * (radius : ℤ)


instance (cx cy : ℤ) (radius : ℕ) (x y : ℕ) :
    Decidable (insideCircle cx cy radius x y) :=
  inferInstanceAs (Decidable (_ ≤ _))


/-- The masked spectrum built by `renderReconFromCircle`
(kspace.ts lines 188-198): `masked[y][x] = inside ? spectrum[y][x] : 0`. -/
noncomputable def maskedSpectrum {rows cols : ℕ}
    (spectrum : Fin rows → Fin cols → ℂ) (cx cy : ℤ) (radius : ℕ)
    (y : Fin rows) (x : Fin cols) : ℂ :=
  if insideCircle cx cy radius x.val y.val then spectrum y x else 0


/-- The reconstructed sample value computed by the worker's
`reconFromCircle` (reconWorker.ts lines 37-70): the mask is applied inline
to each column before the column IFFT, then a row IFFT, real part, and the
checkerboard undo. -/
noncomputable def reconFromCircleValue {rows cols : ℕ}
    (spectrum : Fin rows → Fin cols → ℂ) (cx cy : ℤ) (radius : ℕ)
    (y : Fin rows) (x : Fin cols) : ℝ :=
  (idft1 (fun x' =>
      idft1 (fun y' =>
        if insideCircle cx cy radius x'.val y'.val then spectrum y' x' else 0) y) x).re *
    (if (x.val + y.val) % 2 = 0 then 1 else -1)


/-! ### Byte rescaling (`renderKspace`, `renderReconFromSpectrum`,
`reconFromCircle`) -/

/-- The shared rescale-to-byte step of the source:
`Math.max(0, Math.min(255, Math.round((value - min) * scale)))` with
`scale = max > min ? 255 / (max - min) : 1`.  JavaScript's `Math.round` is
`⌊x + 1/2⌋`, which is Mathlib's `round`. -/
noncomputable def rescaleByte (minV maxV value : ℝ) : ℤ :=
  max 0 (min 255 (round ((value - minV) * (if maxV > minV then 255 / (maxV - minV) else 1))))


/-- Global minimum of a grid of reals, as found by the source's single
min-tracking pass (initialized with `Infinity`; the `0` branch models the
empty grid, which the pass never produces a finite value for). -/
noncomputable def gridMin {rows cols : ℕ} (f : Fin rows → Fin cols → ℝ) : ℝ :=
  if h : (Finset.univ : Finset (Fin rows × Fin cols)).Nonempty then
    Finset.inf' Finset.univ h (fun p => f p.1 p.2)
  else 0


/-- Global maximum of a grid of reals (the source's max-tracking pass). -/
noncomputable def gridMax {rows cols : ℕ} (f : Fin rows → Fin cols → ℝ) : ℝ :=
  if h : (Finset.univ : Finset (Fin rows × Fin cols)).Nonempty then
    Finset.sup' Finset.univ h (fun p => f p.1 p.2)
  else 0


/-- Log-magnitude of one spectrum cell in `renderKspace`
(kspace.ts line 79): `Math.log1p(math.abs(z))`. -/
noncomputable def kMag {rows cols : ℕ} (spectrumCols : Fin rows → Fin cols → ℂ)
    (y : Fin rows) (x : Fin cols) : ℝ :=
  Real.log (1 + Complex.abs (spectrumCols y x))


/-- One gray byte of the k-space rendering (`renderKspace`,
kspace.ts lines 92-95). -/
noncomputable def kspacePixel {rows cols : ℕ}
    (spectrumCols : Fin rows → Fin cols → ℂ) (y : Fin rows) (x : Fin cols) : ℤ :=
  rescaleByte (gridMin (kMag spectrumCols)) (gridMax (kMag spectrumCols))
    (kMag spectrumCols y x)


/-- One gray byte of `renderReconFromSpectrum`'s normalization
(kspace.ts lines 143-146). -/
noncomputable def reconPixel {rows cols : ℕ}
    (spectrumCols : Fin rows → Fin cols → ℂ) (y : Fin rows) (x : Fin cols) : ℤ :=
  rescaleByte (gridMin (reconValue spectrumCols)) (gridMax (reconValue spectrumCols))
    (reconValue spectrumCols y x)


/-- One gray byte of the worker's `reconFromCircle` normalization
(reconWorker.ts lines 73-76). -/
noncomputable def reconFromCirclePixel {rows cols : ℕ}
    (spectrum : Fin rows → Fin cols → ℂ) (cx cy : ℤ) (radius : ℕ)
    (y : Fin rows) (x : Fin cols) : ℤ :=
  rescaleByte (gridMin (reconFromCircleValue spectrum cx cy radius))
    (gridMax (reconFromCircleValue spectrum cx cy radius))
    (reconFromCircleValue spectrum cx cy radius y x)


/-! ### RGBA pixel buffers -/

/-- One RGBA pixel as written by the source's inner loops:
`px[i] = v; px[i+1] = v; px[i+2] = v; px[i+3] = 255`. -/
def pixelQuad (v : ℤ) : List ℤ := [v, v, v, 255]


/-- The packed RGBA buffer produced by the row-major double loop with
`i = (y * cols + x) * 4`. -/
noncomputable def bufferOf {rows cols : ℕ} (pix : Fin rows → Fin cols → ℤ) : List ℤ :=
  (List.finRange rows).flatMap fun y =>
    (List.finRange cols).flatMap fun x => pixelQuad (pix y x)


/-- The pixel buffer returned by the worker's `reconFromCircle`
(reconWorker.ts lines 72-84). -/
noncomputable def reconFromCircleBuffer {rows cols : ℕ}
    (spectrum : Fin rows → Fin cols → ℂ) (cx cy : ℤ) (radius : ℕ) : List ℤ :=
  bufferOf (reconFromCirclePixel spectrum cx cy radius)


/-- The pixel buffer written by `renderReconFromSpectrum`
(kspace.ts lines 137-153). -/
noncomputable def renderReconBuffer {rows cols : ℕ}
    (spectrumCols : Fin rows → Fin cols → ℂ) : List ℤ :=
  bufferOf (reconPixel spectrumCols)


/-! ### The reconstruction worker (`src/workers/reconWorker.ts`) -/

/-- Messages accepted by the worker: `loadSpectrum` and `circleRecon`. -/
inductive InMsg where
  | loadSpectrum (rows cols : ℕ) (re im : List ℝ)
  | circleRecon (cx cy : ℤ) (radius : ℕ)


/-- Messages posted back by the worker: `loaded`, `recon`, `error`. -/
inductive OutMsg where
  | loaded
  | reconMsg (rows cols : ℕ) (pixels : List ℤ)
  | errorMsg (msg : String)


/-- The worker's module-level state: `ROWS`, `COLS`, `SPEC_RE`, `SPEC_IM`
(the planes start out `null`). -/
structure WorkerState where
  rows : ℕ
  cols : ℕ
  specRe : Option (List ℝ)
  specIm : Option (List ℝ)


/-- Initial worker state: `ROWS = 0`, `COLS = 0`, both planes `null`. -/
def initWorker : WorkerState := ⟨0, 0, none, none⟩


/-- `complexAt`: rebuild the complex coefficient at (x, y) from the two
flat planes with `idx(x, y, COLS) = y * COLS + x`. -/
noncomputable def spectrumOfPlanes (rows cols : ℕ) (re im : List ℝ)
    (y : Fin rows) (x : Fin cols) : ℂ :=
  ⟨re.getD (y.val * cols + x.val) 0, im.getD (y.val * cols + x.val) 0⟩


/-- One step of the worker's `self.onmessage` handler
(reconWorker.ts lines 87-110): a load replaces the cached planes and
answers `loaded`; a recon answers the `'Spectrum not loaded'` error when
`!SPEC_RE || !SPEC_IM || ROWS === 0 || COLS === 0`, and otherwise the
reconstructed pixel buffer. -/
noncomputable def workerStep (s : WorkerState) : InMsg → WorkerState × OutMsg
  | .loadSpectrum rows cols re im => (⟨rows, cols, some re, some im⟩, .loaded)
  | .circleRecon cx cy radius =>
      if s.specRe.isNone ∨ s.specIm.isNone ∨ s.rows = 0 ∨ s.cols = 0 then
        (s, .errorMsg "Spectrum not loaded")
      else
        (s, .reconMsg s.rows s.cols
          (reconFromCircleBuffer
            (spectrumOfPlanes s.rows s.cols (s.specRe.getD []) (s.specIm.getD []))
            cx cy radius))


/-- The worker processes its mailbox strictly in arrival order. -/
noncomputable def workerRun (s : WorkerState) : List InMsg → WorkerState
  | [] => s
  | m :: rest => workerRun (workerStep s m).1 rest


/-- Whether a message is a `loadSpectrum` request. -/
def isLoadMsg : InMsg → Bool
  | .loadSpectrum _ _ _ _ => true
  | .circleRecon _ _ _ => false


/-! ### The main thread's result handler (`App.tsx`, `ensureWorker`) -/

/-- The `onmessage` handler of the main thread (App.tsx lines 29-48):
a `recon` message unconditionally replaces the displayed result with the
arriving pixels; `error` and `loaded` leave the display unchanged.  There
is no sequence number or generation tag. -/
def applyWorkerMsg (cur : Option (List ℤ)) : OutMsg → Option (List ℤ)
  | .reconMsg _ _ pixels => some pixels
  | .errorMsg _ => cur
  | .loaded => cur


/-- The displayed reconstruction after a sequence of worker replies has
arrived, starting from no result. -/
def displayedAfter (arrivals : List OutMsg) : Option (List ℤ) :=
  arrivals.foldl applyWorkerMsg none


/-! ### Debounced mask commits (`KSpaceCanvas.scheduleDebouncedRecon`) -/

/-- The mask parameters captured for a commit: natural-coordinate center
and natural radius. -/
structure MaskArgs where
  center : ℤ × ℤ
  rNat : ℕ
deriving DecidableEq


/-- The debounce state of the overlay: whether a timer is pending
(`timerRef.current != null`) and the latest captured arguments
(`lastArgsRef.current`). -/
structure DebounceState where
  timerPending : Bool
  lastArgs : Option MaskArgs
deriving DecidableEq


/-- `scheduleDebouncedRecon` (KSpaceCanvas lines 407-418): returns
untouched when disabled; otherwise stores the latest args, clears any
pending timer, and arms a fresh one. -/
def scheduleDebouncedRecon (disabled : Bool) (s : DebounceState) (a : MaskArgs) :
    DebounceState :=
  if disabled then s
  else { timerPending := true, lastArgs := some a }


/-- The timer callback firing: if a timer is pending, it clears itself and
commits `lastArgsRef.current` via `onMove` (the emitted list); a cancelled
timer emits nothing. -/
def fireDebounceTimer (s : DebounceState) : DebounceState × List MaskArgs :=
  if s.timerPending then
    ({ timerPending := false, lastArgs := s.lastArgs },
      match s.lastArgs with
      | some a => [a]
      | none => [])
  else (s, [])


/-- Events on the interaction thread: a pointer-move mask update while a
gesture is active, or the debounce timer firing. -/
inductive DebounceEvent where
  | move (a : MaskArgs)
  | fire


/-- One interaction-thread event; moves only (re)schedule, never commit. -/
def debounceStep (s : DebounceState) : DebounceEvent → DebounceState × List MaskArgs
  | .move a => (scheduleDebouncedRecon false s a, [])
  | .fire => fireDebounceTimer s


/-- Run a sequence of events, concatenating the commits they emit. -/
def debounceRun (s : DebounceState) : List DebounceEvent → DebounceState × List MaskArgs
  | [] => (s, [])
  | e :: rest =>
      ((debounceRun (debounceStep s e).1 rest).1,
        (debounceStep s e).2 ++ (debounceRun (debounceStep s e).1 rest).2)


/-! ### `computeSpectrum` over JavaScript-style arrays

A list-valued rendering of kspace.ts lines 53-69, mirroring the source's
array types so that the total, validation-free behaviour on degenerate
dimensions is visible (the `Fin`-indexed `computeSpectrum` above carries
the dimensions in its type). -/

/-- Length-`l.length` DFT over a list (the `math.fft` call). -/
noncomputable def dftList (l : List ℂ) : List ℂ :=
  (List.range l.length).map fun k =>
    ∑ n ∈ Finset.range l.length, l.getD n 0 * dftRoot l.length ^ (k * n)


/-- `computeSpectrum` on plain arrays: for each `y < rows` the row is
checkerboard-flipped and FFT'd, then for each `x < cols` the column is
FFT'd; `spectrumCols[y][x] = colFft[y]`.  The function performs no
dimension validation and always returns normally. -/
noncomputable def computeSpectrumList (gray : List (List ℝ)) (rows cols : ℕ) :
    List (List ℂ) :=
  let spectrumRows : List (List ℂ) :=
    (List.range rows).map fun y =>
      dftList ((gray.getD y []).mapIdx fun x v =>
        ((if (x + y) % 2 = 0 then v else -v : ℝ) : ℂ))
  (List.range rows).map fun y =>
    (List.range cols).map fun x =>
      (dftList ((List.range rows).map fun y' =>
        (spectrumRows.getD y' []).getD x 0)).getD y 0


/-! ### The concrete 4×4 constant-grid scenario -/

/-- The 4×4 SampleGrid whose every sample is 100. -/
noncomputable def grid4 : Fin 4 → Fin 4 → ℝ := fun _ _ => 100


theorem dftRoot_eq_inv (N : ℕ) :
    dftRoot N = (Complex.exp (2 * Real.pi * Complex.I / N))⁻¹ := by
  rw [dftRoot, ← Complex.exp_neg]
  ring_nf


theorem dftRoot_isPrimitiveRoot {N : ℕ} (hN : N ≠ 0) :
    IsPrimitiveRoot (dftRoot N) N := by
  rw [dftRoot_eq_inv]
  exact (Complex.isPrimitiveRoot_exp N hN).inv


theorem dftRoot_ne_zero (N : ℕ) : dftRoot N ≠ 0 :=
  Complex.exp_ne_zero _


/-- Orthogonality of the DFT characters: summing
`(dftRoot N ^ n * (dftRoot N)⁻¹ ^ m) ^ k` over `k` gives `N` when
`n = m` and `0` otherwise. -/
theorem dftRoot_orthogonality {N : ℕ} (n m : Fin N) :
    ∑ k : Fin N, (dftRoot N ^ n.val * (dftRoot N)⁻¹ ^ m.val) ^ k.val
      = if n = m then (N : ℂ) else 0 := by
  have hN : N ≠ 0 := (Fin.pos n).ne'
  have hprim := dftRoot_isPrimitiveRoot hN
  have hz0 := dftRoot_ne_zero N
  by_cases hnm : n = m
  · subst hnm
    have h1 : ∀ k : Fin N, (dftRoot N ^ n.val * (dftRoot N)⁻¹ ^ n.val) ^ k.val = 1 := by
      intro k
      rw [inv_pow, mul_inv_cancel₀ (pow_ne_zero _ hz0), one_pow]
    rw [Finset.sum_congr rfl (fun k _ => h1 k)]
    simp
  · have hzz : dftRoot N ^ n.val * (dftRoot N)⁻¹ ^ m.val
        = dftRoot N ^ ((n.val : ℤ) - (m.val : ℤ)) := by
      rw [inv_pow, ← zpow_natCast (dftRoot N) n.val, ← zpow_natCast (dftRoot N) m.val,
        ← zpow_neg, ← zpow_add₀ hz0, sub_eq_add_neg]
    have hz1 : dftRoot N ^ n.val * (dftRoot N)⁻¹ ^ m.val ≠ 1 := by
      intro h
      rw [hzz] at h
      have hdvd := (hprim.zpow_eq_one_iff_dvd _).mp h
      have hlt : |(n.val : ℤ) - (m.val : ℤ)| < (N : ℤ) := by
        have h1 : (n.val : ℤ) < N := by exact_mod_cast n.isLt
        have h2 : (m.val : ℤ) < N := by exact_mod_cast m.isLt
        rw [abs_sub_lt_iff]
        omega
      have h0 : (n.val : ℤ) - (m.val : ℤ) = 0 := Int.eq_zero_of_abs_lt_dvd hdvd hlt
      exact hnm (Fin.ext (by omega))
    have hzN : (dftRoot N ^ n.val * (dftRoot N)⁻¹ ^ m.val) ^ N = 1 := by
      rw [hzz, ← zpow_natCast (dftRoot N ^ ((n.val : ℤ) - (m.val : ℤ))) N, ← zpow_mul,
        mul_comm, zpow_mul, zpow_natCast, hprim.pow_eq_one, one_zpow]
    rw [Fin.sum_univ_eq_sum_range (fun j => (dftRoot N ^ n.val * (dftRoot N)⁻¹ ^ m.val) ^ j) N,
      geom_sum_eq hz1, hzN, sub_self, zero_div, if_neg hnm]


/-- The `mathjs` inverse DFT undoes the forward DFT exactly: the key
numerical fact behind the round-trip property. -/
theorem idft1_dft1 {N : ℕ} (f : Fin N → ℂ) (m : Fin N) :
    idft1 (dft1 f) m = f m := by
  have hN : N ≠ 0 := (Fin.pos m).ne'
  have hNC : (N : ℂ) ≠ 0 := Nat.cast_ne_zero.mpr hN
  unfold idft1 dft1
  have hstep : ∀ k : Fin N,
      (∑ n : Fin N, f n * dftRoot N ^ (k.val * n.val)) * (dftRoot N)⁻¹ ^ (m.val * k.val)
        = ∑ n : Fin N, f n * (dftRoot N ^ n.val * (dftRoot N)⁻¹ ^ m.val) ^ k.val := by
    intro k
    rw [Finset.sum_mul]
    refine Finset.sum_congr rfl fun n _ => ?_
    rw [mul_pow, ← pow_mul, ← pow_mul, Nat.mul_comm n.val k.val, ← mul_assoc]
  rw [Finset.sum_congr rfl fun k _ => hstep k, Finset.sum_comm]
  have hinner : ∀ n : Fin N,
      (∑ k : Fin N, f n * (dftRoot N ^ n.val * (dftRoot N)⁻¹ ^ m.val) ^ k.val)
        = if n = m then f n * (N : ℂ) else 0 := by
    intro n
    rw [← Finset.mul_sum, dftRoot_orthogonality]
    split <;> simp
  rw [Finset.sum_congr rfl fun n _ => hinner n,
    Finset.sum_ite_eq' Finset.univ m (fun n => f n * (N : ℂ)), if_pos (Finset.mem_univ m),
    mul_comm (f m) ((N : ℂ)), ← mul_assoc, inv_mul_cancel₀ hNC, one_mul]


/-- The forward transform followed by the unmasked inverse path reproduces
every sample exactly (in the real-number model of the source's doubles). -/
theorem reconValue_computeSpectrum {rows cols : ℕ}
    (gray : Fin rows → Fin cols → ℝ) (y : Fin rows) (x : Fin cols) :
    reconValue (computeSpectrum gray) y x = gray y x := by
  have hcol : (fun x' => colIfft (computeSpectrum gray) y x')
      = fun x' => dft1 (fun x'' => (centered gray y x'' : ℂ)) x' := by
    funext x'
    exact idft1_dft1 (fun y' => dft1 (fun x'' => (centered gray y' x'' : ℂ)) x') y
  rw [reconValue, hcol, idft1_dft1 (fun x'' => (centered gray y x'' : ℂ)) x,
    Complex.ofReal_re, centered]
  split <;> ring


/-- C1: round-trip through forward transform and unmasked inverse transform
reproduces the original grid with max absolute pixel error below 1 for all
grids with rows, cols drawn from {1, 2, 17, 64, 100} (in the exact real
model the error is 0). -/
theorem C1_roundtrip (rows cols : ℕ)
    (hr : rows ∈ ({1, 2, 17, 64, 100} : Finset ℕ))
    (hc : cols ∈ ({1, 2, 17, 64, 100} : Finset ℕ))
    (gray : Fin rows → Fin cols → ℝ) (y : Fin rows) (x : Fin cols) :
    |reconValue (computeSpectrum gray) y x - gray y x| < 1 := by
  rw [reconValue_computeSpectrum]
  simp


/-- Witness for C1 at a concrete input: the 1×1 grid with value 42. -/
theorem C1_roundtrip_witness :
    1 ∈ ({1, 2, 17, 64, 100} : Finset ℕ) ∧
      |reconValue (computeSpectrum (fun (_ : Fin 1) (_ : Fin 1) => (42 : ℝ))) 0 0 -
        (fun (_ : Fin 1) (_ : Fin 1) => (42 : ℝ)) 0 0| < 1 :=
  ⟨by decide, C1_roundtrip 1 1 (by decide) (by decide) (fun _ _ => 42) 0 0⟩


/-- C2: the masked inverse path keeps exactly the coefficients with
`(x−cx)² + (y−cy)² ≤ radius²` (boundary included), zeroes all others, and
the worker's inline-masked pipeline equals "mask, then unmasked inverse". -/
theorem C2_mask {rows cols : ℕ} (spectrum : Fin rows → Fin cols → ℂ)
    (cx cy : ℤ) (radius : ℕ) :
    (∀ (y : Fin rows) (x : Fin cols), insideCircle cx cy radius x.val y.val →
        maskedSpectrum spectrum cx cy radius y x = spectrum y x) ∧
      (∀ (y : Fin rows) (x : Fin cols), ¬insideCircle cx cy radius x.val y.val →
        maskedSpectrum spectrum cx cy radius y x = 0) ∧
      (∀ (y : Fin rows) (x : Fin cols),
        ((x.val : ℤ) - cx) * ((x.val : ℤ) - cx) +
            ((y.val : ℤ) - cy) * ((y.val : ℤ) - cy) = (radius : ℤ) * (radius : ℤ) →
        maskedSpectrum spectrum cx cy radius y x = spectrum y x) ∧
      (∀ (y : Fin rows) (x : Fin cols),
        reconFromCircleValue spectrum cx cy radius y x =
          reconValue (maskedSpectrum spectrum cx cy radius) y x) := by
  refine ⟨fun y x h => if_pos h, fun y x h => if_neg h, fun y x h => if_pos h.le, fun y x => rfl⟩


/-- Witness for C2 at a concrete input: a 1×1 spectrum of value 5 with the
mask circle centered at the origin with radius 1 keeps the coefficient. -/
theorem C2_mask_witness :
    maskedSpectrum (fun (_ : Fin 1) (_ : Fin 1) => (5 : ℂ)) 0 0 1 0 0 = 5 :=
  (C2_mask (fun _ _ => (5 : ℂ)) 0 0 1).1 0 0 (by decide)


/-- C5: for a fixed center, the set of positions included by the circular
mask at radius `R1` is a subset of the set included at radius `R2 > R1`. -/
theorem C5_mask_monotone (cx cy : ℤ) (R1 R2 : ℕ) (h : R1 < R2) :
    {p : ℕ × ℕ | insideCircle cx cy R1 p.1 p.2} ⊆
      {p : ℕ × ℕ | insideCircle cx cy R2 p.1 p.2} := by
  intro p hp
  simp only [Set.mem_setOf_eq, insideCircle] at hp ⊢
  have hr : (R1 : ℤ) * R1 ≤ (R2 : ℤ) * R2 := by
    exact_mod_cast Nat.mul_le_mul h.le h.le
  exact le_trans hp hr


/-- Witness for C5 at a concrete input: radius 1 versus radius 2 around the
origin, at position (0, 0). -/
theorem C5_mask_monotone_witness :
    (⟨0, 0⟩ : ℕ × ℕ) ∈ {p : ℕ × ℕ | insideCircle 0 0 2 p.1 p.2} :=
  C5_mask_monotone 0 0 1 2 (by decide) (by simp [Set.mem_setOf_eq, insideCircle])


/-- C6: all three renderers rescale through the same clamped-round formula;
the byte equals `round((value − min) / (max − min) × 255)` clamped to
[0, 255] when `max > min`, the scale factor is 1 when `max = min` (no
division by zero), and every output byte lies in [0, 255]. -/
theorem C6_rescale {rows cols : ℕ} (spectrum : Fin rows → Fin cols → ℂ)
    (cx cy : ℤ) (radius : ℕ) (minV maxV value : ℝ) (y : Fin rows) (x : Fin cols) :
    (0 ≤ rescaleByte minV maxV value ∧ rescaleByte minV maxV value ≤ 255) ∧
      (minV < maxV → rescaleByte minV maxV value =
        max 0 (min 255 (round ((value - minV) / (maxV - minV) * 255)))) ∧
      (maxV = minV → rescaleByte minV maxV value =
        max 0 (min 255 (round ((value - minV) * 1)))) ∧
      kspacePixel spectrum y x =
        rescaleByte (gridMin (kMag spectrum)) (gridMax (kMag spectrum))
          (kMag spectrum y x) ∧
      reconPixel spectrum y x =
        rescaleByte (gridMin (reconValue spectrum)) (gridMax (reconValue spectrum))
          (reconValue spectrum y x) ∧
      reconFromCirclePixel spectrum cx cy radius y x =
        rescaleByte (gridMin (reconFromCircleValue spectrum cx cy radius))
          (gridMax (reconFromCircleValue spectrum cx cy radius))
          (reconFromCircleValue spectrum cx cy radius y x) := by
  refine ⟨⟨le_max_left 0 _, max_le (by norm_num) (min_le_left 255 _)⟩, ?_, ?_, rfl, rfl, rfl⟩
  · intro h
    have harg : (value - minV) * (255 / (maxV - minV))
        = (value - minV) / (maxV - minV) * 255 := by ring
    rw [rescaleByte, if_pos h, harg]
  · intro h
    rw [rescaleByte, if_neg (by rw [h]; exact lt_irrefl minV)]


/-- Witness for C6 at concrete values min = 0, max = 1, value = 2. -/
theorem C6_rescale_witness :
    (0 : ℝ) < 1 ∧ 0 ≤ rescaleByte 0 1 2 ∧
      rescaleByte 0 1 2 = max 0 (min 255 (round ((2 - 0) / (1 - 0) * (255 : ℝ)))) :=
  ⟨by norm_num,
    (C6_rescale (fun (_ : Fin 1) (_ : Fin 1) => (0 : ℂ)) 0 0 0 0 1 2 0 0).1.1,
    (C6_rescale (fun (_ : Fin 1) (_ : Fin 1) => (0 : ℂ)) 0 0 0 0 1 2 0 0).2.1 (by norm_num)⟩


theorem length_flatMap_const {α β : Type _} (f : α → List β) (K : ℕ)
    (hf : ∀ a, (f a).length = K) (l : List α) :
    (l.flatMap f).length = l.length * K := by
  induction l with
  | nil => simp
  | cons a t ih => simp [hf, ih]; ring


theorem flatMap_getElem?_const {α β : Type _} (f : α → List β) (K : ℕ)
    (hf : ∀ a, (f a).length = K) :
    ∀ (l : List α) (i j : ℕ) (a : α), j < K → l[i]? = some a →
      (l.flatMap f)[K * i + j]? = (f a)[j]? := by
  intro l
  induction l with
  | nil => intro i j a _ h; simp at h
  | cons b t ih =>
    intro i j a hj h
    cases i with
    | zero =>
      rw [List.getElem?_cons_zero, Option.some_inj] at h
      subst h
      rw [List.flatMap_cons, Nat.mul_zero, Nat.zero_add,
        List.getElem?_append_left (by rw [hf]; exact hj)]
    | succ i' =>
      rw [List.getElem?_cons_succ] at h
      rw [List.flatMap_cons]
      have hidx : K * (i' + 1) + j = (f b).length + (K * i' + j) := by
        rw [hf]; ring
      rw [hidx, List.getElem?_append_right (Nat.le_add_right _ _),
        Nat.add_sub_cancel_left]
      exact ih i' j a hj h


theorem finRange_getElem? {n : ℕ} (k : Fin n) :
    (List.finRange n)[k.val]? = some k := by
  have hlen : k.val < (List.finRange n).length := by
    rw [List.length_finRange]; exact k.isLt
  rw [List.getElem?_eq_getElem hlen, List.getElem_finRange]
  congr 1


theorem bufferOf_length {rows cols : ℕ} (pix : Fin rows → Fin cols → ℤ) :
    (bufferOf pix).length = rows * cols * 4 := by
  have hinner : ∀ y' : Fin rows,
      ((List.finRange cols).flatMap fun x' => pixelQuad (pix y' x')).length
        = cols * 4 := by
    intro y'
    rw [length_flatMap_const (fun x' => pixelQuad (pix y' x')) 4 (fun x' => rfl)
      (List.finRange cols), List.length_finRange]
  rw [bufferOf,
    length_flatMap_const (fun y' => (List.finRange cols).flatMap
      fun x' => pixelQuad (pix y' x')) (cols * 4) hinner (List.finRange rows),
    List.length_finRange, Nat.mul_assoc]


theorem bufferOf_getElem? {rows cols : ℕ} (pix : Fin rows → Fin cols → ℤ)
    (y : Fin rows) (x : Fin cols) (c : ℕ) (hc : c < 4) :
    (bufferOf pix)[(y.val * cols + x.val) * 4 + c]? = (pixelQuad (pix y x))[c]? := by
  have hinner : ∀ y' : Fin rows,
      ((List.finRange cols).flatMap fun x' => pixelQuad (pix y' x')).length
        = cols * 4 := by
    intro y'
    rw [length_flatMap_const (fun x' => pixelQuad (pix y' x')) 4 (fun x' => rfl)
      (List.finRange cols), List.length_finRange]
  have hj : 4 * x.val + c < cols * 4 := by
    have := x.isLt
    omega
  have step1 : (bufferOf pix)[(cols * 4) * y.val + (4 * x.val + c)]?
      = ((List.finRange cols).flatMap fun x' => pixelQuad (pix y x'))[4 * x.val + c]? :=
    flatMap_getElem?_const (fun y' => (List.finRange cols).flatMap
        fun x' => pixelQuad (pix y' x')) (cols * 4) hinner (List.finRange rows)
      y.val (4 * x.val + c) y hj (finRange_getElem? y)
  have step2 : ((List.finRange cols).flatMap fun x' => pixelQuad (pix y x'))[4 * x.val + c]?
      = (pixelQuad (pix y x))[c]? :=
    flatMap_getElem?_const (fun x' => pixelQuad (pix y x')) 4 (fun x' => rfl)
      (List.finRange cols) x.val c x hc (finRange_getElem? x)
  have hidx : (y.val * cols + x.val) * 4 + c = (cols * 4) * y.val + (4 * x.val + c) := by
    ring
  rw [hidx, step1, step2]


/-- C10: every reconstruction buffer has length rows·cols·4 and each pixel
is packed grayscale with equal R, G, B channels in [0, 255] and alpha
exactly 255 — for both the worker's `reconFromCircle` and
`renderReconFromSpectrum`. -/
theorem C10_buffer_format {rows cols : ℕ} (spectrum : Fin rows → Fin cols → ℂ)
    (cx cy : ℤ) (radius : ℕ) (y : Fin rows) (x : Fin cols) :
    (reconFromCircleBuffer spectrum cx cy radius).length = rows * cols * 4 ∧
      (renderReconBuffer spectrum).length = rows * cols * 4 ∧
      (∃ v : ℤ, 0 ≤ v ∧ v ≤ 255 ∧
        (reconFromCircleBuffer spectrum cx cy radius)[(y.val * cols + x.val) * 4]?
            = some v ∧
          (reconFromCircleBuffer spectrum cx cy radius)[(y.val * cols + x.val) * 4 + 1]?
            = some v ∧
          (reconFromCircleBuffer spectrum cx cy radius)[(y.val * cols + x.val) * 4 + 2]?
            = some v) ∧
      (reconFromCircleBuffer spectrum cx cy radius)[(y.val * cols + x.val) * 4 + 3]?
          = some 255 ∧
      (∃ v : ℤ, 0 ≤ v ∧ v ≤ 255 ∧
        (renderReconBuffer spectrum)[(y.val * cols + x.val) * 4]? = some v ∧
          (renderReconBuffer spectrum)[(y.val * cols + x.val) * 4 + 1]? = some v ∧
          (renderReconBuffer spectrum)[(y.val * cols + x.val) * 4 + 2]? = some v) ∧
      (renderReconBuffer spectrum)[(y.val * cols + x.val) * 4 + 3]? = some 255 := by
  have h0 : ∀ pix : Fin rows → Fin cols → ℤ,
      (bufferOf pix)[(y.val * cols + x.val) * 4]? = some (pix y x) := by
    intro pix
    have := bufferOf_getElem? pix y x 0 (by norm_num)
    simpa [pixelQuad] using this
  have h1 : ∀ pix : Fin rows → Fin cols → ℤ,
      (bufferOf pix)[(y.val * cols + x.val) * 4 + 1]? = some (pix y x) := by
    intro pix
    simpa [pixelQuad] using bufferOf_getElem? pix y x 1 (by norm_num)
  have h2 : ∀ pix : Fin rows → Fin cols → ℤ,
      (bufferOf pix)[(y.val * cols + x.val) * 4 + 2]? = some (pix y x) := by
    intro pix
    simpa [pixelQuad] using bufferOf_getElem? pix y x 2 (by norm_num)
  have h3 : ∀ pix : Fin rows → Fin cols → ℤ,
      (bufferOf pix)[(y.val * cols + x.val) * 4 + 3]? = some 255 := by
    intro pix
    simpa [pixelQuad] using bufferOf_getElem? pix y x 3 (by norm_num)
  refine ⟨bufferOf_length _, bufferOf_length _,
    ⟨reconFromCirclePixel spectrum cx cy radius y x,
      le_max_left 0 _, max_le (by norm_num) (min_le_left 255 _), h0 _, h1 _, h2 _⟩,
    h3 _,
    ⟨reconPixel spectrum y x,
      le_max_left 0 _, max_le (by norm_num) (min_le_left 255 _), h0 _, h1 _, h2 _⟩,
    h3 _⟩


theorem workerStep_circleRecon_state (s : WorkerState) (cx cy : ℤ) (radius : ℕ) :
    (workerStep s (.circleRecon cx cy radius)).1 = s := by
  rw [workerStep]
  split <;> rfl


theorem workerRun_no_load (msgs : List InMsg)
    (h : ∀ m ∈ msgs, isLoadMsg m = false) :
    ∀ s : WorkerState, workerRun s msgs = s := by
  induction msgs with
  | nil => intro s; rfl
  | cons m rest ih =>
    intro s
    have hm := h m (List.mem_cons_self m rest)
    cases m with
    | loadSpectrum rows cols re im => simp [isLoadMsg] at hm
    | circleRecon cx cy radius =>
      rw [workerRun, workerStep_circleRecon_state]
      exact ih (fun m' hm' => h m' (List.mem_cons_of_mem _ hm')) s


/-- C4 (amended): a `circleRecon` received before any `loadSpectrum` is
answered with the `'Spectrum not loaded'` error, and after a load with
positive rows and cols has completed, a `circleRecon` (with any further
non-load traffic in between) is answered with a reconstruction, not that
error. -/
theorem C4_no_spectrum_guard :
    (∀ msgs : List InMsg, (∀ m ∈ msgs, isLoadMsg m = false) →
      ∀ (cx cy : ℤ) (radius : ℕ),
        (workerStep (workerRun initWorker msgs) (.circleRecon cx cy radius)).2
          = .errorMsg "Spectrum not loaded") ∧
      (∀ (rows cols : ℕ) (re im : List ℝ) (msgs : List InMsg),
        0 < rows → 0 < cols → (∀ m ∈ msgs, isLoadMsg m = false) →
        ∀ (cx cy : ℤ) (radius : ℕ), ∃ px : List ℤ,
          (workerStep
            (workerRun (workerStep initWorker (.loadSpectrum rows cols re im)).1 msgs)
            (.circleRecon cx cy radius)).2 = .reconMsg rows cols px) := by
  constructor
  · intro msgs h cx cy radius
    rw [workerRun_no_load msgs h initWorker]
    simp [workerStep, initWorker]
  · intro rows cols re im msgs hr hc h cx cy radius
    rw [show (workerStep initWorker (.loadSpectrum rows cols re im)).1
        = ⟨rows, cols, some re, some im⟩ from rfl,
      workerRun_no_load msgs h ⟨rows, cols, some re, some im⟩]
    refine ⟨reconFromCircleBuffer (spectrumOfPlanes rows cols re im) cx cy radius, ?_⟩
    simp [workerStep, hr.ne', hc.ne']


/-- Witness for C4 at concrete inputs: no prior traffic, then a 1×1 load. -/
theorem C4_no_spectrum_guard_witness :
    (workerStep (workerRun initWorker []) (.circleRecon 0 0 1)).2
        = .errorMsg "Spectrum not loaded" ∧
      ∃ px : List ℤ,
        (workerStep (workerRun (workerStep initWorker (.loadSpectrum 1 1 [0] [0])).1 [])
          (.circleRecon 0 0 1)).2 = .reconMsg 1 1 px :=
  ⟨C4_no_spectrum_guard.1 [] (by simp) 0 0 1,
    C4_no_spectrum_guard.2 1 1 [0] [0] [] (by norm_num) (by norm_num) (by simp) 0 0 1⟩


/-- C4 counterexample: a load of a degenerate 0×0 spectrum completes
(`loaded` is posted), yet the next `circleRecon` still takes the
`'Spectrum not loaded'` error branch because the guard also tests
`ROWS === 0 || COLS === 0`. -/
theorem C4_counterexample :
    (workerStep initWorker (.loadSpectrum 0 0 [] [])).2 = .loaded ∧
      (workerStep (workerStep initWorker (.loadSpectrum 0 0 [] [])).1
        (.circleRecon 0 0 1)).2 = .errorMsg "Spectrum not loaded" := by
  constructor
  · rfl
  · simp [workerStep]


/-- C9 (amended): the handler is last-arrival-wins — after any arrival
sequence whose last reconstruction reply carries `px`, the display shows
`px`.  Combined with the FIFO worker (`workerRun`) this means in-order
replies leave request 2's result displayed; there is no staleness tag, so
an out-of-order stale reply would overwrite a newer one (see the
counterexample). -/
theorem C9_last_arrival_wins (ms : List OutMsg) (rows cols : ℕ) (px : List ℤ) :
    displayedAfter (ms ++ [.reconMsg rows cols px]) = some px := by
  rw [displayedAfter, List.foldl_append]
  rfl


/-- C9 counterexample: if response 1 (pixels `[0,0,0,255]`) arrives after
response 2 (pixels `[255,255,255,255]`), the display ends up with response
1's content — the claimed stale-result rejection does not exist. -/
theorem C9_counterexample :
    displayedAfter [.reconMsg 1 1 [255, 255, 255, 255], .reconMsg 1 1 [0, 0, 0, 255]]
        = some [0, 0, 0, 255] ∧
      ([0, 0, 0, 255] : List ℤ) ≠ [255, 255, 255, 255] := by
  exact ⟨rfl, by decide⟩


theorem debounceRun_cons (s : DebounceState) (e : DebounceEvent)
    (rest : List DebounceEvent) :
    debounceRun s (e :: rest)
      = ((debounceRun (debounceStep s e).1 rest).1,
        (debounceStep s e).2 ++ (debounceRun (debounceStep s e).1 rest).2) := rfl


theorem debounceRun_moves (upds : List MaskArgs) (a : MaskArgs)
    (h : upds.getLast? = some a) :
    ∀ s : DebounceState,
      debounceRun s (upds.map DebounceEvent.move)
        = (⟨true, some a⟩, []) := by
  induction upds with
  | nil => simp at h
  | cons b t ih =>
    intro s
    cases t with
    | nil =>
      obtain rfl : b = a := by simpa using h
      simp [debounceRun, debounceStep, scheduleDebouncedRecon]
    | cons c t' =>
      rw [List.getLast?_cons_cons] at h
      have hh := ih h (debounceStep s (.move b)).1
      rw [List.map_cons, debounceRun_cons, hh]
      simp [debounceStep, scheduleDebouncedRecon]


/-- C8: while a gesture is active, every pointer-move only (re)schedules a
debounced commit (emitting nothing), and a burst of 10 mask updates inside
one debounce window followed by the single surviving timer firing delivers
exactly one reconstruct request, carrying the last update's parameters. -/
theorem C8_debounce_coalescing (s0 : DebounceState) (upds : List MaskArgs)
    (a : MaskArgs) (hlen : upds.length = 10) (hlast : upds.getLast? = some a) :
    (∀ (s : DebounceState) (b : MaskArgs),
        debounceStep s (.move b) = (⟨true, some b⟩, [])) ∧
      (debounceRun s0 (upds.map DebounceEvent.move ++ [DebounceEvent.fire])).2
        = [a] := by
  constructor
  · intro s b
    rfl
  · have hmoves := debounceRun_moves upds a hlast
    have hsplit : ∀ (s : DebounceState) (l1 l2 : List DebounceEvent),
        debounceRun s (l1 ++ l2)
          = ((debounceRun (debounceRun s l1).1 l2).1,
            (debounceRun s l1).2 ++ (debounceRun (debounceRun s l1).1 l2).2) := by
      intro s l1
      induction l1 generalizing s with
      | nil => intro l2; simp [debounceRun]
      | cons e t ih =>
        intro l2
        simp [debounceRun, ih, List.append_assoc]
    rw [hsplit, hmoves s0]
    simp [debounceRun, debounceStep, fireDebounceTimer]


/-- Witness for C8 with a concrete burst of 10 updates, the last carrying
center (3, 4) and radius 5. -/
theorem C8_debounce_coalescing_witness :
    ([⟨(0, 0), 1⟩, ⟨(0, 0), 1⟩, ⟨(0, 0), 1⟩, ⟨(0, 0), 1⟩, ⟨(0, 0), 1⟩,
        ⟨(0, 0), 1⟩, ⟨(0, 0), 1⟩, ⟨(0, 0), 1⟩, ⟨(0, 0), 1⟩,
        ⟨(3, 4), 5⟩] : List MaskArgs).length = 10 ∧
      (debounceRun ⟨false, none⟩
        (([⟨(0, 0), 1⟩, ⟨(0, 0), 1⟩, ⟨(0, 0), 1⟩, ⟨(0, 0), 1⟩, ⟨(0, 0), 1⟩,
            ⟨(0, 0), 1⟩, ⟨(0, 0), 1⟩, ⟨(0, 0), 1⟩, ⟨(0, 0), 1⟩,
            ⟨(3, 4), 5⟩] : List MaskArgs).map DebounceEvent.move
          ++ [DebounceEvent.fire])).2 = [⟨(3, 4), 5⟩] :=
  ⟨by decide,
    (C8_debounce_coalescing ⟨false, none⟩ _ ⟨(3, 4), 5⟩ (by decide) (by decide)).2⟩


/-- C3 (amended): `computeSpectrum` performs no dimension validation and
cannot fail — for every input, including `rows = 0` or `cols = 0`, it
returns an ordinary rows×cols spectrum value (empty when `rows = 0`),
never an `InvalidDimensions` error (no such error exists in the code). -/
theorem C3_no_dimension_validation (gray : List (List ℝ)) (rows cols : ℕ) :
    (computeSpectrumList gray rows cols).length = rows ∧
      ∀ y : ℕ, y < rows →
        ((computeSpectrumList gray rows cols).getD y []).length = cols := by
  constructor
  · simp [computeSpectrumList]
  · intro y hy
    rw [computeSpectrumList]
    rw [List.getD_eq_getElem?_getD, List.getElem?_map,
      List.getElem?_range hy]
    simp


/-- Witness for C3 at a concrete input: a 1×1 grid. -/
theorem C3_no_dimension_validation_witness :
    (computeSpectrumList [[1]] 1 1).length = 1 ∧ 0 < 1 ∧
      ((computeSpectrumList [[1]] 1 1).getD 0 []).length = 1 :=
  ⟨(C3_no_dimension_validation [[1]] 1 1).1, by decide,
    (C3_no_dimension_validation [[1]] 1 1).2 0 (by decide)⟩


/-- C3 counterexample: at the non-positive dimensions rows = 0, cols = 0
the source returns the ordinary empty spectrum `[]` — it does not reject
the input with an `InvalidDimensions` (or any) error value. -/
theorem C3_counterexample : computeSpectrumList [] 0 0 = [] := by
  simp [computeSpectrumList]


theorem dftRoot_four : dftRoot 4 = -Complex.I := by
  rw [dftRoot]
  have h : (-(2 * (Real.pi : ℂ) * Complex.I)) / (4 : ℕ)
      = ((-(Real.pi / 2) : ℝ) : ℂ) * Complex.I := by
    push_cast
    ring
  rw [h, Complex.exp_mul_I, ← Complex.ofReal_cos, ← Complex.ofReal_sin,
    Real.cos_neg, Real.cos_pi_div_two, Real.sin_neg, Real.sin_pi_div_two]
  push_cast
  ring


theorem negI_sq : (-Complex.I) ^ 2 = -1 := by
  rw [pow_two, neg_mul_neg, Complex.I_mul_I]


theorem negI_pow_three : (-Complex.I) ^ 3 = Complex.I := by
  rw [show (3 : ℕ) = 2 + 1 from rfl, pow_add, negI_sq, pow_one]
  ring


theorem negI_pow_four : (-Complex.I) ^ 4 = 1 := by
  rw [show (4 : ℕ) = 2 * 2 from rfl, pow_mul, negI_sq]
  norm_num


theorem negI_pow_six : (-Complex.I) ^ 6 = -1 := by
  rw [show (6 : ℕ) = 2 * 3 from rfl, pow_mul, negI_sq]
  norm_num


theorem negI_pow_nine : (-Complex.I) ^ 9 = -Complex.I := by
  rw [show (9 : ℕ) = 3 * 3 from rfl, pow_mul, negI_pow_three,
    show (3 : ℕ) = 2 + 1 from rfl, pow_add, Complex.I_sq, pow_one]
  ring


theorem inner4_even (y' : Fin 4) (hy : y'.val % 2 = 0) (x : Fin 4) :
    dft1 (fun x' => (centered grid4 y' x' : ℂ)) x
      = if x.val = 2 then 400 else 0 := by
  have hc : ∀ x' : Fin 4, ((centered grid4 y' x' : ℝ) : ℂ)
      = if x'.val % 2 = 0 then (100 : ℂ) else -100 := by
    intro x'
    rw [centered]
    have hpar : (x'.val + y'.val) % 2 = x'.val % 2 := by omega
    rw [hpar]
    split <;> simp [grid4]
  have hv3 : ((3 : Fin 4) : ℕ) = 3 := rfl
  rw [dft1, Fin.sum_univ_four]
  simp only [hc]
  rw [dftRoot_four]
  fin_cases x <;>
    norm_num [hv3, negI_sq, negI_pow_three, negI_pow_four, negI_pow_six, negI_pow_nine]


theorem inner4_odd (y' : Fin 4) (hy : y'.val % 2 = 1) (x : Fin 4) :
    dft1 (fun x' => (centered grid4 y' x' : ℂ)) x
      = if x.val = 2 then -400 else 0 := by
  have hc : ∀ x' : Fin 4, ((centered grid4 y' x' : ℝ) : ℂ)
      = if x'.val % 2 = 0 then (-100 : ℂ) else 100 := by
    intro x'
    rw [centered]
    rcases Nat.even_or_odd x'.val with he | ho
    · have hx2 : x'.val % 2 = 0 := Nat.even_iff.mp he
      rw [if_neg (by omega : ¬(x'.val + y'.val) % 2 = 0), if_pos hx2]
      simp [grid4]
    · have hx2 : x'.val % 2 = 1 := Nat.odd_iff.mp ho
      rw [if_pos (by omega : (x'.val + y'.val) % 2 = 0),
        if_neg (by omega : ¬x'.val % 2 = 0)]
      simp [grid4]
  have hv3 : ((3 : Fin 4) : ℕ) = 3 := rfl
  rw [dft1, Fin.sum_univ_four]
  simp only [hc]
  rw [dftRoot_four]
  fin_cases x <;>
    norm_num [hv3, negI_sq, negI_pow_three, negI_pow_four, negI_pow_six, negI_pow_nine]


theorem spec4 (y x : Fin 4) :
    computeSpectrum grid4 y x = if y.val = 2 ∧ x.val = 2 then 1600 else 0 := by
  rw [computeSpectrum]
  have hrow : ∀ y' : Fin 4, dft1 (fun x' => (centered grid4 y' x' : ℂ)) x
      = (if y'.val % 2 = 0 then 1 else -1) * (if x.val = 2 then 400 else 0) := by
    intro y'
    rcases Nat.even_or_odd y'.val with he | ho
    · rw [inner4_even y' (Nat.even_iff.mp he) x, if_pos (Nat.even_iff.mp he), one_mul]
    · have h1 : y'.val % 2 = 1 := Nat.odd_iff.mp ho
      rw [inner4_odd y' h1 x, if_neg (by omega : ¬y'.val % 2 = 0)]
      split <;> ring
  have hv3 : ((3 : Fin 4) : ℕ) = 3 := rfl
  rw [dft1, Fin.sum_univ_four]
  simp only [hrow]
  rw [dftRoot_four]
  by_cases hx : x.val = 2
  · simp only [if_pos hx, hx]
    fin_cases y <;>
      norm_num [hv3, negI_sq, negI_pow_three, negI_pow_four, negI_pow_six, negI_pow_nine]
  · simp only [if_neg hx]
    simp [hx]


theorem kmag4 (y x : Fin 4) :
    kMag (computeSpectrum grid4) y x
      = if y.val = 2 ∧ x.val = 2 then Real.log 1601 else 0 := by
  rw [kMag, spec4]
  split
  · rw [show ((1600 : ℂ)) = ((1600 : ℝ) : ℂ) by norm_num, Complex.abs_ofReal]
    rw [abs_of_nonneg (by norm_num : (0 : ℝ) ≤ 1600)]
    norm_num
  · simp


theorem kmin4 : gridMin (kMag (computeSpectrum grid4)) = 0 := by
  have hne : (Finset.univ : Finset (Fin 4 × Fin 4)).Nonempty := Finset.univ_nonempty
  rw [gridMin, dif_pos hne]
  apply le_antisymm
  · refine le_trans (Finset.inf'_le _ (Finset.mem_univ ((0 : Fin 4), (0 : Fin 4)))) ?_
    rw [kmag4]
    norm_num
  · apply Finset.le_inf'
    intro p _
    rw [kmag4 p.1 p.2]
    split
    · exact Real.log_nonneg (by norm_num)
    · exact le_refl 0


theorem kmax4 : gridMax (kMag (computeSpectrum grid4)) = Real.log 1601 := by
  have hne : (Finset.univ : Finset (Fin 4 × Fin 4)).Nonempty := Finset.univ_nonempty
  have hv2 : ((2 : Fin 4) : ℕ) = 2 := rfl
  rw [gridMax, dif_pos hne]
  apply le_antisymm
  · apply Finset.sup'_le
    intro p _
    rw [kmag4 p.1 p.2]
    split
    · exact le_refl _
    · exact Real.log_nonneg (by norm_num)
  · refine le_trans ?_ (Finset.le_sup' _ (Finset.mem_univ ((2 : Fin 4), (2 : Fin 4))))
    rw [kmag4]
    norm_num [hv2]


theorem kpix4 (y x : Fin 4) :
    kspacePixel (computeSpectrum grid4) y x
      = if y.val = 2 ∧ x.val = 2 then 255 else 0 := by
  have hpos : (0 : ℝ) < Real.log 1601 := Real.log_pos (by norm_num)
  rw [kspacePixel, kmin4, kmax4, rescaleByte, kmag4, if_pos hpos]
  split
  · have hne0 : Real.log 1601 - 0 ≠ 0 := by
      rw [sub_zero]
      exact hpos.ne'
    have harg : (Real.log 1601 - 0) * (255 / (Real.log 1601 - 0)) = 255 := by
      field_simp
    rw [harg, show ((255 : ℝ)) = ((255 : ℤ) : ℝ) by norm_num, round_intCast]
    norm_num
  · norm_num


/-- C7 (amended): the 4×4 all-100 grid transforms to a spectrum whose
entire energy sits in the single coefficient at the grid center (2, 2) —
the DC term relocated there by the checkerboard phase flip, not at
(0, 0) — all other coefficients are exactly 0, and the log-magnitude
rendering is the byte 255 at the center pixel over a uniform 0 field. -/
theorem C7_concrete_scenario :
    computeSpectrum grid4 2 2 = 1600 ∧
      (∀ y x : Fin 4, ¬(y.val = 2 ∧ x.val = 2) → computeSpectrum grid4 y x = 0) ∧
      kspacePixel (computeSpectrum grid4) 2 2 = 255 ∧
      ∀ y x : Fin 4, ¬(y.val = 2 ∧ x.val = 2) →
        kspacePixel (computeSpectrum grid4) y x = 0 := by
  have hv2 : ((2 : Fin 4) : ℕ) = 2 := rfl
  refine ⟨?_, ?_, ?_, ?_⟩
  · rw [spec4]
    simp [hv2]
  · intro y x h
    rw [spec4, if_neg h]
  · rw [kpix4]
    simp [hv2]
  · intro y x h
    rw [kpix4, if_neg h]


/-- Witness for C7 at the concrete off-center position (0, 0). -/
theorem C7_concrete_scenario_witness :
    ¬(((0 : Fin 4) : ℕ) = 2 ∧ ((0 : Fin 4) : ℕ) = 2) ∧
      computeSpectrum grid4 0 0 = 0 :=
  ⟨by decide, C7_concrete_scenario.2.1 0 0 (by decide)⟩


/-- C7 counterexample: for the all-100 grid the coefficient at (0, 0) is 0
while the coefficient at (2, 2) holds all the energy (1600) — the claim's
"all energy in the coefficient at (0, 0)" is false of the code. -/
theorem C7_counterexample :
    computeSpectrum grid4 0 0 = 0 ∧ computeSpectrum grid4 2 2 = 1600 := by
  have hv2 : ((2 : Fin 4) : ℕ) = 2 := rfl
  constructor
  · rw [spec4]
    norm_num
  · rw [spec4]
    simp [hv2]


end KSpaceLab
